import Mathlib

/-!
# mmio: page-aligned memory windows over `/dev/mem`

A shallow embedding of `src/mmio.c` and `src/mmio.h`.

Machine model.  `unsigned long`, `size_t` and pointers are `w` bits wide
(`w = 32` on ILP32 Linux, `w = 64` on LP64 Linux) and are represented by
natural numbers below `2 ^ w`; every arithmetic operation on them is reduced
modulo `2 ^ w`.  `int` is 32 bits wide and is represented by an integer in
`[-2^31, 2^31)`; conversions into `int` and `int` arithmetic are reduced into
that range by `toInt` (wrap-around in twos complement).  `uint32_t` values are
natural numbers below `2 ^ 32`.
-/

namespace Mmio

/-! ## Machine integers -/

/-- Reduction of a mathematical integer into the range of a 32-bit `int`. -/
def toInt (i : Int) : Int := (i + 2147483648) % 4294967296 - 2147483648

/-- Conversion of a signed value to a `w`-bit `unsigned long` / `size_t`. -/
def toULong (w : Nat) (i : Int) : Nat := (i % ((2 ^ w : Nat) : Int)).toNat

/-! ## `struct mmio_options` (mmio.h) -/

/-- The option block of mmio.h, one field per member. -/
structure mmio_options where
  /-- getpagesize() aligned, see mmap(2) -/
  iobase : Nat
  /-- additional offset from iobase -/
  offset : Nat
  /-- N * uint32_t read/write ops. -/
  range : Nat
  /-- 32 bit values only -/
  value : Nat
  flags : Nat
  verbose : Int
  ascii : Int
  forced : Int
  /-- 0 - read, 1 - write -/
  mode : Int
  /-- 0 - /dev/mem, 1 - /dev/kmem -/
  kmem : Int
  iomem : Nat
  iosize : Nat
deriving DecidableEq

/-! ## `mmio_normalize` -/

/-- The function `mmio_normalize` of mmio.c; `pagesize` is the value returned
by `getpagesize()`. -/
def mmio_normalize (w : Nat) (pagesize : Int) (mo : mmio_options) : mmio_options :=
  let npages0 : Int := 0
  -- mo->iobase += mo->offset;
  let iobase1 := (mo.iobase + mo.offset) % 2 ^ w
  -- mo->offset = mo->iobase & (getpagesize() - 1);
  let offset1 := iobase1 &&& toULong w (toInt (pagesize - 1))
  -- mo->iobase = mo->iobase & ~(getpagesize() - 1);
  let iobase2 := iobase1 &&& toULong w (~~~ toInt (pagesize - 1))
  -- npages += (mo->range * sizeof(uint32_t)) / getpagesize();
  let npages1 := toInt (((toULong w npages0 +
    (mo.range * 4) % 2 ^ w / toULong w pagesize) % 2 ^ w : Nat) : Int)
  -- npages += 1;
  let npages2 := toInt (npages1 + 1)
  -- mo->iosize = npages * getpagesize();
  { mo with
    iobase := iobase2
    offset := offset1
    iosize := toULong w (toInt (npages2 * pagesize)) }

/-- An all-zero option block (the result of `memset(mo, 0, sizeof(*mo))`). -/
def mo_zero : mmio_options :=
  { iobase := 0, offset := 0, range := 0, value := 0, flags := 0, verbose := 0,
    ascii := 0, forced := 0, mode := 0, kmem := 0, iomem := 0, iosize := 0 }

/-! ## `readl` / `writel` (mmio.h) and what lies behind a pointer -/

/-- The behaviour of 32-bit loads and stores through a pointer into the
mapping: plain memory, or a device register with its own semantics.  `σ` is
the state of whatever is mapped. -/
structure Bus (σ : Type) where
  /-- a 32-bit load `*data` at a byte address: the value and the state after -/
  load32 : σ → Nat → Nat × σ
  /-- a 32-bit store `*data = value` at a byte address -/
  store32 : σ → Nat → Nat → σ

/-- The inline function `readl` of mmio.h. -/
def readl {σ : Type} (bus : Bus σ) (ptr : Nat) (s : σ) : Nat × σ :=
  bus.load32 s ptr

/-- The inline function `writel` of mmio.h. -/
def writel {σ : Type} (bus : Bus σ) (value : Nat) (ptr : Nat) (s : σ) : σ :=
  bus.store32 s ptr value

/-- The four bytes of a 32-bit value in storage order (lowest address first). -/
def word_bytes (bigEndian : Bool) (v : Nat) : List Nat :=
  let le := [v % 256, v / 256 % 256, v / 65536 % 256, v / 16777216 % 256]
  if bigEndian then le.reverse else le

/-- The 32-bit value held by four bytes in storage order. -/
def bytes_word (bigEndian : Bool) (b0 b1 b2 b3 : Nat) : Nat :=
  if bigEndian then b3 + 256 * b2 + 65536 * b1 + 16777216 * b0
  else b0 + 256 * b1 + 65536 * b2 + 16777216 * b3

/-- A 32-bit store into a byte buffer: the four bytes at `p .. p+3`. -/
def ram_store32 (bigEndian : Bool) (buf : List Nat) (p v : Nat) : List Nat :=
  match word_bytes bigEndian v with
  | [b0, b1, b2, b3] => (((buf.set p b0).set (p + 1) b1).set (p + 2) b2).set (p + 3) b3
  | _ => buf

/-- A 32-bit load from a byte buffer. -/
def ram_load32 (bigEndian : Bool) (buf : List Nat) (p : Nat) : Nat :=
  bytes_word bigEndian (buf.getD p 0) (buf.getD (p + 1) 0) (buf.getD (p + 2) 0)
    (buf.getD (p + 3) 0)

/-- Ordinary read-write memory: a buffer of bytes addressed from 0, of either
byte order; loads have no side effect. -/
def ram (bigEndian : Bool) : Bus (List Nat) where
  load32 := fun buf p => (ram_load32 bigEndian buf p, buf)
  store32 := fun buf p v => ram_store32 bigEndian buf p v

/-- A read-only register file: stores are ignored and every load returns the
fixed value `v`. -/
def rom (v : Nat) : Bus Unit where
  load32 := fun s _ => (v, s)
  store32 := fun s _ _ => s

/-! ## `printf` conversions -/

/-- One upper-case hexadecimal digit. -/
def hexDigit (d : Nat) : Char :=
  if d < 10 then Char.ofNat (48 + d) else Char.ofNat (55 + d)

/-- The hexadecimal digits of `n`, most significant first, without leading
zeros; `fuel` bounds the number of digits. -/
def hexDigits : Nat → Nat → List Char
  | 0, _ => []
  | fuel + 1, n =>
    if n < 16 then [hexDigit n] else hexDigits fuel (n / 16) ++ [hexDigit (n % 16)]

/-- The `printf` conversions `%0<width>X` and `%0<width>lX`: upper-case
hexadecimal, padded on the left with zeros to at least `width` characters. -/
def fmtX (width n : Nat) : String :=
  let ds := hexDigits (n + 1) n
  String.mk (List.replicate (width - ds.length) '0' ++ ds)

/-! ## The process: option block, mapped device, output, system calls -/

/-- The system calls of mmio.c that concern the mapping, with their results. -/
inductive Syscall where
  | open_ (device : String) (ok : Bool)
  | mmap (length fileOffset : Nat) (result : Option Nat)
  | close
  | munmap (ptr length : Nat) (ok : Bool)
deriving DecidableEq

/-- The operating system as seen by mmio.c. -/
structure OS where
  /-- getpagesize() -/
  pagesize : Int
  /-- whether open(device, O_RDWR) succeeds -/
  open_ok : String → Bool
  /-- mmap(NULL, length, ..., fd, offset): the address, or none for MAP_FAILED -/
  mmap : Nat → Nat → Option Nat
  /-- whether munmap(ptr, length) returns 0 -/
  munmap_ok : Nat → Nat → Bool
  /-- whether an access of `len` bytes at `ptr` that is not wholly inside the
  mapping is answered with a fatal signal (SIGSEGV, SIGBUS) -/
  stray_fault : Nat → Nat → Bool

/-- The declarations of utils.h used by mmio.c (the header is not part of the
sources at hand): the dump mode constants, the number parsers (none when the
C function returns a negative value) and the renderer `__hexdump(addr, ptr,
len, flags)`, which reads the mapped device and returns the text it prints. -/
structure Utils (σ : Type) where
  HEXDUMP_ASCII : Nat
  HEXDUMP_8BIT : Nat
  HEXDUMP_16BIT : Nat
  HEXDUMP_32BIT : Nat
  parse_ulong : String → Option Nat
  parse_uint32 : String → Option Nat
  hexdump : σ → Nat → Nat → Nat → Nat → List String × σ

/-- The state of the running process. -/
structure Proc (σ : Type) where
  mo : mmio_options
  /-- state of the device behind the mapping -/
  dev : σ
  /-- lines written to standard output, in order -/
  out : List String
  /-- diagnostics of `die`, in order -/
  err : List String
  /-- the system calls made so far, in order -/
  calls : List Syscall
  /-- whether the process was ended by a signal -/
  killed : Bool

/-- A step of the program: `ok` when control returns to the caller, `error`
when the process has ended inside it (through `die`, `exit` or a signal); both
carry the process state at that point. -/
abbrev Step (σ : Type) := Except (Proc σ) (Proc σ)

/-- The process state at the end of a step, whichever way it ended. -/
def Step.final {σ : Type} : Step σ → Proc σ
  | .ok p => p
  | .error p => p

/-- Whether control returned to the caller. -/
def Step.returned {σ : Type} : Step σ → Bool
  | .ok _ => true
  | .error _ => false

/-- Modelled from the spec: `die` / `die_errno` of utils.c, which is not part
of the sources at hand; all core errors "terminate the invocation immediately
with a diagnostic". -/
def die {σ : Type} (p : Proc σ) (msg : String) : Step σ :=
  .error { p with err := p.err ++ [msg] }

/-- The end of the process by a signal: nothing more is printed and no
further call is made. -/
def kill {σ : Type} (p : Proc σ) : Step σ :=
  .error { p with killed := true }

/-- Whether the `len` bytes at `ptr` lie inside the mapping, the `iosize`
bytes from `iomem`. -/
def inside (mo : mmio_options) (ptr len : Nat) : Bool :=
  decide (mo.iomem ≤ ptr ∧ ptr + len ≤ mo.iomem + mo.iosize)

/-- Whether the process survives an access of `len` bytes at `ptr`: an access
inside the mapping is served by the device; one that leaves the mapping is at
the mercy of the operating system. -/
def survives (os : OS) (mo : mmio_options) (ptr len : Nat) : Bool :=
  len == 0 || inside mo ptr len || !os.stray_fault ptr len

/-- MAP_FAILED, `(void *) -1`. -/
def MAP_FAILED (w : Nat) : Nat := 2 ^ w - 1

/-! ## mmio.c -/

/-- The arguments of one `__hexdump` call. -/
structure HexdumpCall where
  addr : Nat
  ptr : Nat
  len : Nat
  flags : Nat
deriving DecidableEq

/-- The arguments `mmio_hexdump` passes to `__hexdump`. -/
def mmio_hexdump_args (w : Nat) (mo : mmio_options) (flags : Nat) : HexdumpCall :=
  { addr := (mo.iobase + mo.offset) % 2 ^ w
    ptr := (mo.iomem + mo.offset) % 2 ^ w
    len := (mo.range * 4) % 2 ^ w
    flags := flags }

/-- The call `__hexdump(addr, ptr, len, flags)`: the renderer reads the `len`
bytes at `ptr` and returns what it prints; none when the process is killed by
a signal while it reads (what it had printed until then is not recorded). -/
def hexdump_call {σ : Type} (os : OS) (u : Utils σ) (mo : mmio_options) (dev : σ)
    (c : HexdumpCall) : Option (List String × σ) :=
  if survives os mo c.ptr c.len then some (u.hexdump dev c.addr c.ptr c.len c.flags)
  else none

/-- The function `mmio_hexdump` of mmio.c. -/
def mmio_hexdump {σ : Type} (w : Nat) (os : OS) (u : Utils σ) (mo : mmio_options)
    (flags : Nat) (dev : σ) : Option (List String × σ) :=
  hexdump_call os u mo dev (mmio_hexdump_args w mo flags)

/-- The function `mmio_init` of mmio.c. -/
def mmio_init {σ : Type} (w : Nat) (os : OS) (p : Proc σ) : Step σ :=
  let device := if p.mo.kmem = 0 then "/dev/mem" else "/dev/kmem"
  let opened := os.open_ok device
  let p1 := { p with calls := p.calls ++ [Syscall.open_ device opened] }
  if opened = false then die p1 "open() failed"
  else
    let r := os.mmap p1.mo.iosize p1.mo.iobase
    let p2 := { p1 with calls := p1.calls ++ [Syscall.mmap p1.mo.iosize p1.mo.iobase r] }
    match r with
    | none =>
      die { p2 with mo := { p2.mo with iomem := MAP_FAILED w } }
        ("can\x27t map @ " ++ fmtX 0 p2.mo.iobase)
    | some ptr =>
      .ok { p2 with mo := { p2.mo with iomem := ptr }, calls := p2.calls ++ [Syscall.close] }

/-- The function `mmio_map` of mmio.c. -/
def mmio_map {σ : Type} (w : Nat) (os : OS) (p : Proc σ) (base length : Nat) : Step σ :=
  let mo1 := { p.mo with iobase := base, offset := 0, range := length }
  let mo2 := mmio_normalize w os.pagesize mo1
  mmio_init w os { p with mo := mo2 }

/-- The function `mmio_cleanup` of mmio.c. -/
def mmio_cleanup {σ : Type} (os : OS) (p : Proc σ) : Step σ :=
  let ok := os.munmap_ok p.mo.iomem p.mo.iosize
  let p1 := { p with calls := p.calls ++ [Syscall.munmap p.mo.iomem p.mo.iosize ok] }
  if ok = false then die p1 ("can\x27t unmap @ " ++ fmtX 0 p1.mo.iobase)
  else .ok p1

/-- Split at the first `@`, as `strchr(addr, '@')` followed by `*ptr = 0;
++ptr` does: the text before it and, when there is one, the text after it. -/
def split_range (addr : String) : String × Option String :=
  match addr.toList.span (fun c => c != '@') with
  | (a, []) => (String.mk a, none)
  | (a, _ :: r) => (String.mk a, some (String.mk r))

/-- The function `mmio_check` of mmio.c; `data = none` is the NULL pointer. -/
def mmio_check {σ : Type} (w : Nat) (os : OS) (u : Utils σ) (p : Proc σ)
    (addr : String) (data : Option String) : Step σ :=
  let (a, ptr) := split_range addr
  match u.parse_ulong a with
  | none => die p ("cannot parse \x27" ++ a ++ "\x27 as unsigned long.\n")
  | some iobase =>
    let parsed : Option Nat :=
      match ptr with
      | none => some 1
      | some r => u.parse_ulong r
    match parsed with
    | none => die p ("cannot parse \x27" ++ ptr.getD "" ++ "\x27 as uint32_t.\n")
    | some range =>
      match data with
      | some d =>
        match u.parse_uint32 d with
        | none => die p ("cannot parse \x27" ++ d ++ "\x27 as unsigned long.\n")
        | some v =>
          mmio_map w os { p with mo := { p.mo with value := v % 2 ^ 32, mode := 1 } }
            (iobase % 2 ^ w) (range % 2 ^ w)
      | none =>
        mmio_map w os { p with mo := { p.mo with mode := 0 } } (iobase % 2 ^ w) (range % 2 ^ w)

/-- The command line after `getopt`: the option characters it returns one
after the other, and the arguments left from `argv[optind]` on. -/
structure Argv where
  opts : List Char
  args : List String

/-- The option loop of `mmio_parse`: `ok` when `getopt` reports the end of
the options, `error` when the default case calls `exit(1)`; both carry the
option block as it is then. -/
def mmio_options_loop {σ : Type} (u : Utils σ) :
    List Char → mmio_options → Except mmio_options mmio_options
  | [], mo => .ok mo
  | ch :: rest, mo =>
    if ch = 'a' then mmio_options_loop u rest { mo with flags := u.HEXDUMP_ASCII }
    else if ch = 'b' then mmio_options_loop u rest { mo with flags := u.HEXDUMP_8BIT }
    else if ch = 'h' then mmio_options_loop u rest { mo with flags := u.HEXDUMP_16BIT }
    else if ch = 'x' then mmio_options_loop u rest { mo with flags := u.HEXDUMP_32BIT }
    else if ch = 'k' then mmio_options_loop u rest { mo with kmem := 1 }
    else .error mo

/-- The text `usage` of mmio.c. -/
def usage : String :=
  "mmio [options] <address>[@<range>] (1)\n" ++
  "mmio [options] <address> <value>   (2)\n" ++
  "\n" ++
  "OPTIONS:\n" ++
  " -a   - 8bit hex + ascii output\n" ++
  " -b   - 8bit hex output\n" ++
  " -h   - 16bit hex output\n" ++
  " -x   - 32bit hex output\n" ++
  " -k   - use /dev/kmem instead of /dev/mem (default)\n" ++
  "\n" ++
  "(1) dumps specified memory range\n" ++
  "(2) writes specified value to address\n"

/-- The function `mmio_usage` of mmio.c, called with a message. -/
def mmio_usage {σ : Type} (p : Proc σ) (msg : String) : Step σ :=
  die p (msg ++ "\n" ++ usage)

/-- The function `mmio_parse` of mmio.c. -/
def mmio_parse {σ : Type} (w : Nat) (os : OS) (u : Utils σ) (p : Proc σ) (argv : Argv) :
    Step σ :=
  -- memset(mo, 0, sizeof(*mo)); mo->range = 1; mo->flags = HEXDUMP_32BIT;
  let mo0 := { mo_zero with range := 1, flags := u.HEXDUMP_32BIT }
  match mmio_options_loop u argv.opts mo0 with
  | .error mo1 => .error { p with mo := mo1 }
  | .ok mo1 =>
    let p1 := { p with mo := mo1 }
    match argv.args with
    | [] => mmio_usage p1 "command line arguments missing"
    | [p1s] => mmio_check w os u p1 p1s none
    | [p1s, p2s] => mmio_check w os u p1 p1s (some p2s)
    | _ => mmio_usage p1 "too many command line arguments"

/-- The function `mmio_read` of mmio.c. -/
def mmio_read {σ : Type} (w : Nat) (os : OS) (u : Utils σ) (p : Proc σ) : Step σ :=
  match mmio_hexdump w os u p.mo p.mo.flags p.dev with
  | none => kill p
  | some r => .ok { p with dev := r.2, out := p.out ++ r.1 }

/-- The function `mmio_write` of mmio.c. -/
def mmio_write {σ : Type} (w : Nat) (os : OS) (bus : Bus σ) (p : Proc σ) : Step σ :=
  -- writel(mo->value, mo->iomem + mo->offset);
  if survives os p.mo ((p.mo.iomem + p.mo.offset) % 2 ^ w) 4 = false then kill p
  else
    let dev1 := writel bus p.mo.value ((p.mo.iomem + p.mo.offset) % 2 ^ w) p.dev
    -- printf("W@ %08lX: %08X\n", mo->iobase + mo->offset, mo->value);
    let out1 := p.out ++
      ["W@ " ++ fmtX 8 ((p.mo.iobase + p.mo.offset) % 2 ^ w) ++ ": " ++ fmtX 8 p.mo.value
        ++ "\n"]
    -- data = readl(mo->iomem + mo->offset);  (the four bytes just written)
    let r := readl bus ((p.mo.iomem + p.mo.offset) % 2 ^ w) dev1
    if r.1 ≠ p.mo.value then
      .ok { p with
        dev := r.2
        out := out1 ++ ["Wrote " ++ fmtX 8 p.mo.value ++ " and read again " ++ fmtX 8 r.1 ++
          ", r/o register ?\n"] }
    else .ok { p with dev := r.2, out := out1 }

/-- The function `mmio_run` of mmio.c. -/
def mmio_run {σ : Type} (w : Nat) (os : OS) (u : Utils σ) (bus : Bus σ) (p : Proc σ) :
    Step σ :=
  if p.mo.mode = 0 then mmio_read w os u p
  else if p.mo.mode = 1 then mmio_write w os bus p
  else die p ("Unknown MMIO mode:" ++ toString p.mo.mode ++ "\n")

/-- The function `main` of mmio.c.  The process starts with no output and no
system call made; `garbage` is the uninitialised stack memory of `mo` and
`dev` the state of the device. -/
def main {σ : Type} (w : Nat) (os : OS) (u : Utils σ) (bus : Bus σ) (garbage : mmio_options)
    (dev : σ) (argv : Argv) : Step σ :=
  let p : Proc σ :=
    { mo := garbage, dev := dev, out := [], err := [], calls := [], killed := false }
  match mmio_parse w os u p argv with
  | .error q => .error q
  | .ok p1 =>
    match mmio_run w os u bus p1 with
    | .error q => .error q
    | .ok p2 => mmio_cleanup os p2

/-- The (pointer, length) pairs of the successful `mmap` calls of a log. -/
def acquired (calls : List Syscall) : List (Nat × Nat) :=
  calls.filterMap fun c =>
    match c with
    | Syscall.mmap len _ (some ptr) => some (ptr, len)
    | _ => none

/-- The (pointer, length) pairs of the `munmap` calls of a log. -/
def released (calls : List Syscall) : List (Nat × Nat) :=
  calls.filterMap fun c =>
    match c with
    | Syscall.munmap ptr len _ => some (ptr, len)
    | _ => none

/-- The smallest number of pages that holds `n` bytes. -/
def ceilDiv (n pagesize : Nat) : Nat := (n + pagesize - 1) / pagesize

/-! ## Sample environment -/

/-- An operating system with 4 KiB pages where every call succeeds, the
mapping is placed at 0x40000000 and nothing else is mapped around it. -/
def os_4k : OS :=
  { pagesize := 4096
    open_ok := fun _ => true
    mmap := fun _ _ => some 0x40000000
    munmap_ok := fun _ _ => true
    stray_fault := fun _ _ => true }

/-- A process at start, with the device in state `s`. -/
def proc0 {σ : Type} (s : σ) : Proc σ :=
  { mo := mo_zero, dev := s, out := [], err := [], calls := [], killed := false }

/-- A sample utils.h: dump mode constants 1, 2, 4, 8, parsers that know the
numbers used in the examples, and a renderer that prints one line with the
address, length and flags it was handed. -/
def utils_sample : Utils Unit :=
  { HEXDUMP_ASCII := 1, HEXDUMP_8BIT := 2, HEXDUMP_16BIT := 4, HEXDUMP_32BIT := 8
    parse_ulong := fun s =>
      if s = "0x1003" then some 4099 else if s = "0x1ffc" then some 8188
      else if s = "2" then some 2 else none
    parse_uint32 := fun s => if s = "0xDEADBEEF" then some 3735928559 else none
    hexdump := fun s addr _ len flags =>
      (["dump " ++ fmtX 8 addr ++ " " ++ fmtX 0 len ++ " " ++ fmtX 0 flags ++ "\n"], s) }

/-- A process about to write 0xDEADBEEF at address 0x1000, mapped at
0x40000000. -/
def write_sample : Proc Unit :=
  { proc0 () with
    mo := { mo_zero with
      iobase := 0x1000, offset := 0, range := 1, value := 0xDEADBEEF, mode := 1,
      iomem := 0x40000000, iosize := 0x1000 } }

/-- A process on a 64-bit machine about to write 0xDEADBEEF at address
0x123456789ABC, mapped at 0x7F0000000000. -/
def write_sample_64 : Proc Unit :=
  { proc0 () with
    mo := { mo_zero with
      iobase := 0x123456789000, offset := 0xABC, range := 1, value := 0xDEADBEEF, mode := 1,
      iomem := 0x7F0000000000, iosize := 0x1000 } }

/-- The window of `mmio 0x1ffe 0xDEADBEEF` with 4 KiB pages: offset 0xffe in
a mapping of 0x1000 bytes. -/
def write_sample_edge : Proc Unit :=
  (mmio_map 32 os_4k
    { proc0 () with mo := { mo_zero with value := 0xDEADBEEF, mode := 1 } } 0x1ffe 1).final

/-- The command line `mmio -x 0x1003 0xDEADBEEF`. -/
def argv_write : Argv := { opts := ['x'], args := ["0x1003", "0xDEADBEEF"] }

/-- The command line `mmio 0x1ffc@2`. -/
def argv_dump : Argv := { opts := [], args := ["0x1ffc@2"] }

/-- Whether a character is an upper-case hexadecimal digit. -/
def isUpperHex (c : Char) : Bool := "0123456789ABCDEF".toList.contains c

/-! ## Machine arithmetic lemmas -/

theorem toInt_of_range (i : Int) (h1 : -2147483648 ≤ i) (h2 : i < 2147483648) : toInt i = i := by
  unfold toInt
  omega

theorem toULong_ofNat (w n : Nat) (h : n < 2 ^ w) : toULong w (n : Int) = n := by
  unfold toULong
  rw [Int.emod_eq_of_lt (by positivity) (by exact_mod_cast h)]
  simp

theorem toULong_not_ofNat (w n : Nat) (h : n < 2 ^ w) :
    toULong w (~~~ (n : Int)) = 2 ^ w - (n + 1) := by
  unfold toULong
  have h1 : (~~~ (n : Int)) = -((n : Int) + 1) := by
    show Int.negSucc n = _
    rw [Int.negSucc_eq]
  rw [h1, ← Int.add_emod_self, Int.emod_eq_of_lt]
  · have : (-((n : Int) + 1) + ((2 ^ w : Nat) : Int)) = ((2 ^ w - (n + 1) : Nat) : Int) := by
      rw [Nat.cast_sub (by omega)]
      push_cast
      ring
    rw [this]
    simp
  · have : ((n : Int) + 1) ≤ ((2 ^ w : Nat) : Int) := by exact_mod_cast h
    omega
  · have : (0 : Int) ≤ (n : Int) := by positivity
    omega

theorem two_pow_32_le (w : Nat) (hw : 32 ≤ w) : 4294967296 ≤ 2 ^ w := by
  calc 4294967296 = 2 ^ 32 := by norm_num
    _ ≤ 2 ^ w := Nat.pow_le_pow_right (by decide) hw

/-! ## What `mmio_normalize` computes -/

theorem pagesize_mask (w P : Nat) (hw : 32 ≤ w) (hP1 : 1 ≤ P) (hP2 : P < 2147483648) :
    toULong w (toInt ((P : Int) - 1)) = P - 1 ∧
    toULong w (~~~ toInt ((P : Int) - 1)) = 2 ^ w - P := by
  have h32 := two_pow_32_le w hw
  have hc : (P : Int) - 1 = ((P - 1 : Nat) : Int) := by
    rw [Nat.cast_sub hP1]; simp
  have hr : toInt ((P : Int) - 1) = ((P - 1 : Nat) : Int) := by
    rw [toInt_of_range _ (by omega) (by omega), hc]
  rw [hr]
  refine ⟨toULong_ofNat w _ (by omega), ?_⟩
  rw [toULong_not_ofNat w _ (by omega)]
  congr 1
  omega

theorem normalize_offset (w P base n : Nat) (mo : mmio_options) (hw : 32 ≤ w) (hP1 : 1 ≤ P)
    (hP2 : P < 2147483648) (hb : base < 2 ^ w) :
    (mmio_normalize w (P : Int) { mo with iobase := base, offset := 0, range := n }).offset
      = base &&& (P - 1) := by
  simp only [mmio_normalize, Nat.add_zero, Nat.mod_eq_of_lt hb, (pagesize_mask w P hw hP1 hP2).1]

theorem normalize_iobase (w P base n : Nat) (mo : mmio_options) (hw : 32 ≤ w) (hP1 : 1 ≤ P)
    (hP2 : P < 2147483648) (hb : base < 2 ^ w) :
    (mmio_normalize w (P : Int) { mo with iobase := base, offset := 0, range := n }).iobase
      = base &&& (2 ^ w - P) := by
  simp only [mmio_normalize, Nat.add_zero, Nat.mod_eq_of_lt hb, (pagesize_mask w P hw hP1 hP2).2]

theorem normalize_iosize (w P : Nat) (mo : mmio_options) (hw : 32 ≤ w) (hP1 : 1 ≤ P)
    (hfit : ((mo.range * 4) % 2 ^ w / P + 1) * P < 2147483648) :
    (mmio_normalize w (P : Int) mo).iosize = ((mo.range * 4) % 2 ^ w / P + 1) * P := by
  have h32 := two_pow_32_le w hw
  have hz : toULong w (0 : Int) = 0 := by
    have := toULong_ofNat w 0 (by omega)
    simpa using this
  have hPle : P ≤ ((mo.range * 4) % 2 ^ w / P + 1) * P := Nat.le_mul_of_pos_left _ (Nat.succ_pos _)
  simp only [mmio_normalize]
  rw [hz, toULong_ofNat w P (by omega), Nat.zero_add]
  generalize (mo.range * 4) % 2 ^ w / P = q at *
  have hq1 : q + 1 ≤ (q + 1) * P := Nat.le_mul_of_pos_right _ hP1
  rw [Nat.mod_eq_of_lt (by omega : q < 2 ^ w)]
  rw [toInt_of_range (q : Int) (by omega) (by omega),
    toInt_of_range ((q : Int) + 1) (by omega) (by omega)]
  have hcast : ((q : Int) + 1) * (P : Int) = (((q + 1) * P : Nat) : Int) := by push_cast; ring
  rw [hcast, toInt_of_range _ (by omega) (by omega), toULong_ofNat w _ (by omega)]

/-- A mask and its complement within `w` bits split a `w`-bit value. -/
theorem and_add_and_compl (w : Nat) (x m : Nat) (hx : x < 2 ^ w) (hm : m < 2 ^ w) :
    (x &&& m) + (x &&& (2 ^ w - (m + 1))) = x := by
  have hor : (x &&& m) ||| (x &&& (2 ^ w - (m + 1))) = x := by
    apply Nat.eq_of_testBit_eq
    intro i
    simp only [Nat.testBit_or, Nat.testBit_and, Nat.testBit_two_pow_sub_succ hm]
    by_cases hi : i < w
    · simp [hi]
      cases x.testBit i <;> cases m.testBit i <;> rfl
    · have : x.testBit i = false := Nat.testBit_lt_two_pow
        (lt_of_lt_of_le hx (Nat.pow_le_pow_right (by decide) (by omega)))
      simp [this]
  have hand : (x &&& m) &&& (x &&& (2 ^ w - (m + 1))) = 0 := by
    apply Nat.eq_of_testBit_eq
    intro i
    simp only [Nat.testBit_and, Nat.testBit_two_pow_sub_succ hm, Nat.zero_testBit]
    cases x.testBit i <;> cases m.testBit i <;> simp
  have h1 : (x &&& m) < 2 ^ w := lt_of_le_of_lt Nat.and_le_left hx
  have h2 : (x &&& (2 ^ w - (m + 1))) < 2 ^ w := lt_of_le_of_lt Nat.and_le_left hx
  have := BitVec.add_eq_or_of_and_eq_zero (BitVec.ofNat (w+1) (x &&& m))
    (BitVec.ofNat (w+1) (x &&& (2 ^ w - (m + 1)))) (by
      apply BitVec.eq_of_toNat_eq
      simp only [BitVec.toNat_and, BitVec.toNat_ofNat, BitVec.ofNat_eq_ofNat]
      rw [Nat.mod_eq_of_lt (by rw [pow_succ]; omega), Nat.mod_eq_of_lt (by rw [pow_succ]; omega), hand]
      simp)
  have := congrArg BitVec.toNat this
  simp only [BitVec.toNat_add, BitVec.toNat_or, BitVec.toNat_ofNat] at this
  rw [Nat.mod_eq_of_lt (a := x &&& m) (by rw [pow_succ]; omega),
    Nat.mod_eq_of_lt (a := x &&& (2 ^ w - (m + 1))) (by rw [pow_succ]; omega), hor,
    Nat.mod_eq_of_lt (by rw [pow_succ]; omega)] at this
  exact this

/-! ## A successful `mmio_map` -/

/-- What a successful `mmio_init` leaves behind. -/
theorem mmio_init_ok {σ : Type} (w : Nat) (os : OS) (p p' : Proc σ)
    (h : mmio_init w os p = .ok p') :
    ∃ ptr,
      os.mmap p.mo.iosize p.mo.iobase = some ptr ∧
      p'.mo = { p.mo with iomem := ptr } ∧
      p'.dev = p.dev ∧ p'.out = p.out ∧ p'.err = p.err ∧
      p'.calls = p.calls ++
          [Syscall.open_ (if p.mo.kmem = 0 then "/dev/mem" else "/dev/kmem") true,
           Syscall.mmap p.mo.iosize p.mo.iobase (some ptr), Syscall.close] := by
  cases hopen : os.open_ok (if p.mo.kmem = 0 then "/dev/mem" else "/dev/kmem") with
  | false => simp [mmio_init, hopen, die] at h
  | true =>
    cases hr : os.mmap p.mo.iosize p.mo.iobase with
    | none => simp [mmio_init, hopen, hr, die] at h
    | some ptr =>
      simp only [mmio_init, hopen, hr] at h
      have hp := (Except.ok.inj h).symm
      refine ⟨ptr, rfl, ?_, ?_, ?_, ?_, ?_⟩ <;> simp [hp]

/-- What a successful `mmio_map` leaves behind: the geometry of
`mmio_normalize`, the pointer returned by `mmap`, and three system calls. -/
theorem mmio_map_ok {σ : Type} (w : Nat) (os : OS) (p p' : Proc σ) (base n : Nat)
    (h : mmio_map w os p base n = .ok p') :
    ∃ ptr,
      p'.mo = { mmio_normalize w os.pagesize
        { p.mo with iobase := base, offset := 0, range := n } with iomem := ptr } ∧
      os.mmap p'.mo.iosize p'.mo.iobase = some ptr ∧
      p'.dev = p.dev ∧ p'.out = p.out ∧ p'.err = p.err ∧
      p'.calls = p.calls ++
        [Syscall.open_ (if p.mo.kmem = 0 then "/dev/mem" else "/dev/kmem") true,
         Syscall.mmap p'.mo.iosize p'.mo.iobase (some ptr), Syscall.close] := by
  have hk : (mmio_normalize w os.pagesize
      { p.mo with iobase := base, offset := 0, range := n }).kmem = p.mo.kmem := rfl
  simp only [mmio_map] at h
  generalize mmio_normalize w os.pagesize _ = N at h hk ⊢
  obtain ⟨ptr, hm, hmo, hdev, hout, herr, hcalls⟩ := mmio_init_ok w os _ p' h
  dsimp only at hm hmo hdev hout herr hcalls
  refine ⟨ptr, hmo, ?_, hdev, hout, herr, ?_⟩
  · rw [hmo]; exact hm
  · rw [hcalls, hmo, hk]

/-- The geometry after a successful `mmio_map` on a machine with page size `P`. -/
theorem mmio_map_fields {σ : Type} (w P base n : Nat) (os : OS) (p p' : Proc σ)
    (hw : 32 ≤ w) (hP1 : 1 ≤ P) (hP2 : P < 2147483648) (hos : os.pagesize = (P : Int))
    (hb : base < 2 ^ w) (h : mmio_map w os p base n = .ok p') :
    p'.mo.offset = base &&& (P - 1) ∧ p'.mo.iobase = base &&& (2 ^ w - P) ∧
    p'.mo.range = n ∧
    p'.mo.iosize = (mmio_normalize w (P : Int)
      { p.mo with iobase := base, offset := 0, range := n }).iosize := by
  obtain ⟨ptr, hmo, -⟩ := mmio_map_ok w os p p' base n h
  rw [hos] at hmo
  refine ⟨?_, ?_, ?_, ?_⟩
  · rw [hmo]; exact normalize_offset w P base n p.mo hw hP1 hP2 hb
  · rw [hmo]; exact normalize_iobase w P base n p.mo hw hP1 hP2 hb
  · rw [hmo]; rfl
  · rw [hmo]

/-- Window decomposition: offset below the page size, and page base plus
offset is the requested address, without wrap-around. -/
theorem mmio_map_window {σ : Type} (w P base n : Nat) (os : OS) (p p' : Proc σ)
    (hw : 32 ≤ w) (hP1 : 1 ≤ P) (hP2 : P < 2147483648) (hos : os.pagesize = (P : Int))
    (hb : base < 2 ^ w) (h : mmio_map w os p base n = .ok p') :
    p'.mo.offset < P ∧ p'.mo.iobase + p'.mo.offset = base := by
  obtain ⟨ho, hi, -, -⟩ := mmio_map_fields w P base n os p p' hw hP1 hP2 hos hb h
  have h32 := two_pow_32_le w hw
  constructor
  · rw [ho]
    have : base &&& (P - 1) ≤ P - 1 := Nat.and_le_right
    omega
  · rw [ho, hi, Nat.add_comm]
    have := and_add_and_compl w base (P - 1) hb (by omega)
    rwa [Nat.sub_add_cancel hP1] at this

/-- With a power-of-two page size the offset is the remainder and the page
base the requested address less the remainder. -/
theorem mmio_map_pow2 {σ : Type} (w k base n : Nat) (os : OS) (p p' : Proc σ)
    (hw : 32 ≤ w) (hk : k ≤ 30) (hos : os.pagesize = ((2 ^ k : Nat) : Int))
    (hb : base < 2 ^ w) (h : mmio_map w os p base n = .ok p') :
    p'.mo.offset = base % 2 ^ k ∧ p'.mo.iobase = base - base % 2 ^ k := by
  have hP1 : 1 ≤ 2 ^ k := Nat.one_le_two_pow
  have hP2 : 2 ^ k < 2147483648 := by
    calc 2 ^ k ≤ 2 ^ 30 := Nat.pow_le_pow_right (by decide) hk
      _ < 2147483648 := by norm_num
  obtain ⟨ho, -, -, -⟩ := mmio_map_fields w (2 ^ k) base n os p p' hw hP1 hP2 hos hb h
  obtain ⟨-, hsum⟩ := mmio_map_window w (2 ^ k) base n os p p' hw hP1 hP2 hos hb h
  have ho' : p'.mo.offset = base % 2 ^ k := by
    rw [ho, Nat.and_pow_two_sub_one_eq_mod]
  refine ⟨ho', ?_⟩
  rw [ho'] at hsum
  omega

/-! ## Exits before and after the mapping is acquired -/

/-- When `mmio_init` exits, it has neither acquired nor released a mapping. -/
theorem mmio_init_error {σ : Type} (w : Nat) (os : OS) (p q : Proc σ)
    (h : mmio_init w os p = .error q) :
    acquired q.calls = acquired p.calls ∧ released q.calls = released p.calls := by
  cases hopen : os.open_ok (if p.mo.kmem = 0 then "/dev/mem" else "/dev/kmem") with
  | false =>
    simp only [mmio_init, hopen, die] at h
    have hq := (Except.error.inj h).symm
    simp [hq, acquired, released, List.filterMap_append]
  | true =>
    cases hr : os.mmap p.mo.iosize p.mo.iobase with
    | none =>
      simp only [mmio_init, hopen, hr, die] at h
      have hq := (Except.error.inj h).symm
      simp [hq, acquired, released, List.filterMap_append]
    | some ptr => simp [mmio_init, hopen, hr] at h

/-- When `mmio_map` exits, it has neither acquired nor released a mapping. -/
theorem mmio_map_error {σ : Type} (w : Nat) (os : OS) (p q : Proc σ) (base n : Nat)
    (h : mmio_map w os p base n = .error q) :
    acquired q.calls = acquired p.calls ∧ released q.calls = released p.calls := by
  simp only [mmio_map] at h
  generalize mmio_normalize w os.pagesize _ = N at h
  have := mmio_init_error w os _ q h
  exact this

/-- The mode field is not touched by `mmio_normalize`. -/
theorem normalize_mode (w : Nat) (P : Int) (mo : mmio_options) :
    (mmio_normalize w P mo).mode = mo.mode := rfl

/-- After a successful `mmio_map`: the mode is unchanged, and the log has
grown by the open, the successful `mmap` of (iomem, iosize) and the close. -/
theorem mmio_map_ok_log {σ : Type} (w : Nat) (os : OS) (p p' : Proc σ) (base n : Nat)
    (h : mmio_map w os p base n = .ok p') :
    p'.mo.mode = p.mo.mode ∧
    ∃ d, p'.calls = p.calls ++
      [Syscall.open_ d true, Syscall.mmap p'.mo.iosize p'.mo.iobase (some p'.mo.iomem),
       Syscall.close] := by
  obtain ⟨ptr, hmo, -, -, -, -, hcalls⟩ := mmio_map_ok w os p p' base n h
  have hptr : p'.mo.iomem = ptr := by rw [hmo]
  refine ⟨?_, (if p.mo.kmem = 0 then "/dev/mem" else "/dev/kmem"), ?_⟩
  · rw [hmo]; rfl
  · rw [hcalls, hptr]

/-- The two ways `mmio_check` ends: an exit with no mapping acquired or
released, or a return in mode 0 or 1 with the mapping just acquired. -/
theorem mmio_check_cases {σ : Type} (w : Nat) (os : OS) (u : Utils σ) (p : Proc σ)
    (addr : String) (data : Option String) :
    (∀ q, mmio_check w os u p addr data = .error q →
      acquired q.calls = acquired p.calls ∧ released q.calls = released p.calls) ∧
    (∀ p', mmio_check w os u p addr data = .ok p' →
      (p'.mo.mode = 0 ∨ p'.mo.mode = 1) ∧
      ∃ d, p'.calls = p.calls ++
        [Syscall.open_ d true, Syscall.mmap p'.mo.iosize p'.mo.iobase (some p'.mo.iomem),
         Syscall.close]) := by
  unfold mmio_check
  simp only
  split
  · simp [die]
  · split
    · simp [die]
    · split
      · split
        · simp [die]
        · constructor
          · intro q hq
            have := mmio_map_error w os _ q _ _ hq
            exact this
          · intro p' hp'
            obtain ⟨h1, h2⟩ := mmio_map_ok_log w os _ p' _ _ hp'
            exact ⟨Or.inr h1, h2⟩
      · constructor
        · intro q hq
          have := mmio_map_error w os _ q _ _ hq
          exact this
        · intro p' hp'
          obtain ⟨h1, h2⟩ := mmio_map_ok_log w os _ p' _ _ hp'
          exact ⟨Or.inl h1, h2⟩

/-- The two ways `mmio_parse` ends (see `mmio_check_cases`). -/
theorem mmio_parse_cases {σ : Type} (w : Nat) (os : OS) (u : Utils σ) (p : Proc σ)
    (argv : Argv) :
    (∀ q, mmio_parse w os u p argv = .error q →
      acquired q.calls = acquired p.calls ∧ released q.calls = released p.calls) ∧
    (∀ p', mmio_parse w os u p argv = .ok p' →
      (p'.mo.mode = 0 ∨ p'.mo.mode = 1) ∧
      ∃ d, p'.calls = p.calls ++
        [Syscall.open_ d true, Syscall.mmap p'.mo.iosize p'.mo.iobase (some p'.mo.iomem),
         Syscall.close]) := by
  unfold mmio_parse
  simp only
  split
  · constructor
    · intro q hq
      have hq' := (Except.error.inj hq).symm
      simp [hq']
    · intro p' hp'
      simp at hp'
  · split
    · simp [mmio_usage, die]
    · rename_i mo1 _ _ p1s _
      exact mmio_check_cases w os u
        { mo := mo1, dev := p.dev, out := p.out, err := p.err, calls := p.calls,
          killed := p.killed } p1s none
    · rename_i mo1 _ _ p1s p2s _
      exact mmio_check_cases w os u
        { mo := mo1, dev := p.dev, out := p.out, err := p.err, calls := p.calls,
          killed := p.killed } p1s (some p2s)
    · simp [mmio_usage, die]

/-- However `mmio_read` ends, it leaves the option block and the log alone;
it either returns or the process is killed in the renderer. -/
theorem mmio_read_cases {σ : Type} (w : Nat) (os : OS) (u : Utils σ) (p : Proc σ) :
    (mmio_read w os u p).final.mo = p.mo ∧ (mmio_read w os u p).final.calls = p.calls ∧
    ((mmio_read w os u p).returned = true ∨ mmio_read w os u p = kill p) := by
  unfold mmio_read
  split
  · exact ⟨rfl, rfl, Or.inr rfl⟩
  · exact ⟨rfl, rfl, Or.inl rfl⟩

/-- However `mmio_write` ends, it leaves the option block and the log alone;
it either returns or the process is killed at the store. -/
theorem mmio_write_cases {σ : Type} (w : Nat) (os : OS) (bus : Bus σ) (p : Proc σ) :
    (mmio_write w os bus p).final.mo = p.mo ∧ (mmio_write w os bus p).final.calls = p.calls ∧
    ((mmio_write w os bus p).returned = true ∨ mmio_write w os bus p = kill p) := by
  unfold mmio_write
  simp only
  split
  · exact ⟨rfl, rfl, Or.inr rfl⟩
  · split
    · exact ⟨rfl, rfl, Or.inl rfl⟩
    · exact ⟨rfl, rfl, Or.inl rfl⟩

/-- In mode 0 or 1 `mmio_run` leaves the option block and the log alone and
either returns or the process is killed by a signal during the access. -/
theorem mmio_run_cases {σ : Type} (w : Nat) (os : OS) (u : Utils σ) (bus : Bus σ)
    (p : Proc σ) (h : p.mo.mode = 0 ∨ p.mo.mode = 1) :
    (mmio_run w os u bus p).final.mo = p.mo ∧ (mmio_run w os u bus p).final.calls = p.calls ∧
    ((mmio_run w os u bus p).returned = true ∨ mmio_run w os u bus p = kill p) := by
  rcases h with h | h
  · have : mmio_run w os u bus p = mmio_read w os u p := by simp [mmio_run, h]
    rw [this]
    exact mmio_read_cases w os u p
  · have : mmio_run w os u bus p = mmio_write w os bus p := by simp [mmio_run, h]
    rw [this]
    exact mmio_write_cases w os bus p

/-- Whether `munmap` succeeds or not, `mmio_cleanup` has called it once, on
(iomem, iosize), and nothing else. -/
theorem mmio_cleanup_final {σ : Type} (os : OS) (p : Proc σ) :
    (mmio_cleanup os p).final.calls = p.calls ++
      [Syscall.munmap p.mo.iomem p.mo.iosize (os.munmap_ok p.mo.iomem p.mo.iosize)] := by
  unfold mmio_cleanup
  simp only
  split <;> simp [die, Step.final]

/-- How `main` continues after `mmio_parse` and `mmio_run`. -/
theorem main_eq {σ : Type} (w : Nat) (os : OS) (u : Utils σ) (bus : Bus σ)
    (garbage : mmio_options) (dev : σ) (argv : Argv) :
    (∀ q, mmio_parse w os u
        { mo := garbage, dev := dev, out := [], err := [], calls := [], killed := false }
        argv = .error q → main w os u bus garbage dev argv = .error q) ∧
    (∀ p1, mmio_parse w os u
        { mo := garbage, dev := dev, out := [], err := [], calls := [], killed := false }
        argv = .ok p1 →
      (∀ q, mmio_run w os u bus p1 = .error q → main w os u bus garbage dev argv = .error q) ∧
      (∀ p2, mmio_run w os u bus p1 = .ok p2 →
        main w os u bus garbage dev argv = mmio_cleanup os p2)) := by
  refine ⟨?_, ?_⟩
  · intro q h
    simp only [main, h]
  · intro p1 h
    refine ⟨?_, ?_⟩
    · intro q h2
      simp only [main, h, h2]
    · intro p2 h2
      simp only [main, h, h2]

/-- The three ways a run of `main` ends: before a mapping is acquired, with
neither `mmap` success nor `munmap` in the log; after `mmio_cleanup`, with
the log open, mmap, close, munmap on the mapped pointer and length; or killed
by a signal during the access, with the mapping acquired and never released. -/
theorem main_release_cases {σ : Type} (w : Nat) (os : OS) (u : Utils σ) (bus : Bus σ)
    (garbage : mmio_options) (dev : σ) (argv : Argv) :
    (acquired (main w os u bus garbage dev argv).final.calls = [] ∧
      released (main w os u bus garbage dev argv).final.calls = []) ∨
    (∃ d len off ptr ok, (main w os u bus garbage dev argv).final.calls =
      [Syscall.open_ d true, Syscall.mmap len off (some ptr), Syscall.close,
       Syscall.munmap ptr len ok]) ∨
    (∃ d len off ptr, (main w os u bus garbage dev argv).final.calls =
      [Syscall.open_ d true, Syscall.mmap len off (some ptr), Syscall.close] ∧
      (main w os u bus garbage dev argv).final.killed = true ∧
      (main w os u bus garbage dev argv).returned = false) := by
  obtain ⟨herr, hok⟩ := mmio_parse_cases w os u
    { mo := garbage, dev := dev, out := [], err := [], calls := [], killed := false } argv
  obtain ⟨hm1, hm2⟩ := main_eq w os u bus garbage dev argv
  cases hparse : mmio_parse w os u
      { mo := garbage, dev := dev, out := [], err := [], calls := [], killed := false }
      argv with
  | error q =>
    left
    rw [hm1 q hparse]
    have := herr q hparse
    simpa [Step.final, acquired, released] using this
  | ok p1 =>
    right
    obtain ⟨hmode, d, hcalls⟩ := hok p1 hparse
    obtain ⟨hmo, hc, hret⟩ := mmio_run_cases w os u bus p1 hmode
    simp only [List.nil_append] at hcalls
    cases hrun : mmio_run w os u bus p1 with
    | error q =>
      right
      rw [(hm2 p1 hparse).1 q hrun]
      rw [hrun] at hmo hc hret
      simp only [Step.final] at hmo hc
      rcases hret with hret | hret
      · simp [Step.returned] at hret
      · have hq : q.killed = true := by
          have := (Except.error.inj hret)
          rw [this]
        refine ⟨d, p1.mo.iosize, p1.mo.iobase, p1.mo.iomem, ?_, ?_, ?_⟩
        · show q.calls = _
          rw [hc, hcalls]
        · exact hq
        · rfl
    | ok p2 =>
      left
      rw [(hm2 p1 hparse).2 p2 hrun]
      rw [hrun] at hmo hc
      simp only [Step.final] at hmo hc
      refine ⟨d, p1.mo.iosize, p1.mo.iobase, p1.mo.iomem,
        os.munmap_ok p2.mo.iomem p2.mo.iosize, ?_⟩
      rw [mmio_cleanup_final, hc, hcalls, hmo]
      simp

/-! ## Plain memory -/

theorem ram_store32_length (be : Bool) (buf : List Nat) (p v : Nat) :
    (ram_store32 be buf p v).length = buf.length := by
  cases be <;> simp [ram_store32, word_bytes]

theorem ram_store32_get (be : Bool) (buf : List Nat) (p v i : Nat) :
    (ram_store32 be buf p v)[i]? =
      if i = p + 3 ∧ i < buf.length then some ((word_bytes be v).getD 3 0)
      else if i = p + 2 ∧ i < buf.length then some ((word_bytes be v).getD 2 0)
      else if i = p + 1 ∧ i < buf.length then some ((word_bytes be v).getD 1 0)
      else if i = p ∧ i < buf.length then some ((word_bytes be v).getD 0 0)
      else buf[i]? := by
  cases be <;>
  · simp only [ram_store32, word_bytes, List.reverse_cons, List.reverse_nil, List.nil_append,
      List.cons_append, List.getD_eq_getElem?_getD, if_true, Bool.false_eq_true, if_false]
    simp only [List.getElem?_set, List.length_set]
    simp
    split_ifs <;> first | rfl | omega | simp_all

/-! ## Hexadecimal output -/

theorem hexDigits_length_le : ∀ (fuel k n : Nat), n < 16 ^ (k + 1) →
    (hexDigits fuel n).length ≤ k + 1 := by
  intro fuel
  induction fuel with
  | zero => intro k n _; simp [hexDigits]
  | succ f ih =>
    intro k n hn
    unfold hexDigits
    split
    · simp
    · rename_i h16
      cases k with
      | zero => simp at hn; omega
      | succ k =>
        have : n / 16 < 16 ^ (k + 1) := by
          rw [Nat.div_lt_iff_lt_mul (by decide)]
          rw [pow_succ] at hn
          exact hn
        have := ih k (n / 16) this
        simp
        omega

theorem fmtX_length (n : Nat) (h : n < 2 ^ 32) : (fmtX 8 n).length = 8 := by
  have hl := hexDigits_length_le (n + 1) 7 n (by norm_num at h ⊢; exact h)
  simp only [fmtX, String.length, List.length_append, List.length_replicate]
  omega

theorem hexDigit_upper (d : Nat) (h : d < 16) : isUpperHex (hexDigit d) = true := by
  interval_cases d <;> decide

theorem hexDigits_upper : ∀ (fuel n : Nat), ∀ c ∈ hexDigits fuel n, isUpperHex c = true := by
  intro fuel
  induction fuel with
  | zero => intro n c hc; simp [hexDigits] at hc
  | succ f ih =>
    intro n c hc
    unfold hexDigits at hc
    split at hc
    · rename_i h
      simp at hc
      rw [hc]
      exact hexDigit_upper n h
    · simp only [List.mem_append, List.mem_singleton] at hc
      rcases hc with hc | hc
      · exact ih _ c hc
      · rw [hc]
        exact hexDigit_upper _ (Nat.mod_lt _ (by decide))

theorem fmtX_upper (width n : Nat) : ∀ c ∈ (fmtX width n).toList, isUpperHex c = true := by
  intro c hc
  have hc' : c ∈ List.replicate (width - (hexDigits (n + 1) n).length) '0'
      ++ hexDigits (n + 1) n := hc
  rcases List.mem_append.mp hc' with hc | hc
  · rw [(List.mem_replicate.mp hc).2]
    decide
  · exact hexDigits_upper _ _ c hc

/-- The field printed by `%08X` has at least eight characters. -/
theorem fmtX_length_ge (n : Nat) : 8 ≤ (fmtX 8 n).length := by
  simp only [fmtX, String.length, List.length_append, List.length_replicate]
  omega

/-! ## C1 -/

/-- C1 (fails on the code): `mmio 0x1ffc@2` on a machine with 4 KiB pages maps
one page (0x1000 bytes) with offset 0xffc, while `mmio_hexdump` is handed 8
bytes from that offset: offset + wordCount*4 = 0x1004 exceeds the mapping. -/
theorem C1_access_past_mapping :
    ∃ p' : Proc Unit, mmio_map 32 os_4k (proc0 ()) 0x1ffc 2 = .ok p' ∧
      p'.mo.offset = 0xffc ∧ p'.mo.iosize = 0x1000 ∧
      (mmio_hexdump_args 32 p'.mo p'.mo.flags).len = 8 ∧
      ¬ (p'.mo.offset + 2 * 4 ≤ p'.mo.iosize) :=
  ⟨_, rfl, by decide, by decide, by decide, by decide⟩

/-! ## C2 -/

/-- C2 (fails on the code): the code maps floor(wordCount*4 / pageSize) + 1
pages where the claim has ceil(wordCount*4 / pageSize) + 1.  At requestedBase
= 0x1003, pageSize = 0x1000, wordCount = 2 it gives pageBase = 0x1000, offset
= 3 and a mapping of 0x1000 bytes, not 0x2000; at requestedBase = 0x1ffc the
0x1000 bytes mapped do not reach the end of the access at 0x1004, which the
0x2000 bytes of the claim would. -/
theorem C2_one_page_short :
    (∃ p' : Proc Unit, mmio_map 32 os_4k (proc0 ()) 0x1003 2 = .ok p' ∧
      p'.mo.iobase = 0x1000 ∧ p'.mo.offset = 3 ∧ p'.mo.iosize = 0x1000 ∧
      (ceilDiv (2 * 4) 0x1000 + 1) * 0x1000 = 0x2000 ∧
      ¬ (p'.mo.iosize = (ceilDiv (2 * 4) 0x1000 + 1) * 0x1000)) ∧
    (∃ p' : Proc Unit, mmio_map 32 os_4k (proc0 ()) 0x1ffc 2 = .ok p' ∧
      p'.mo.iosize = 0x1000 ∧
      ¬ (p'.mo.iosize = (ceilDiv (2 * 4) 0x1000 + 1) * 0x1000) ∧
      ¬ (p'.mo.offset + 2 * 4 ≤ p'.mo.iosize) ∧
      p'.mo.offset + 2 * 4 ≤ (ceilDiv (2 * 4) 0x1000 + 1) * 0x1000) :=
  ⟨⟨_, rfl, by decide, by decide, by decide, by decide, by decide⟩,
   ⟨_, rfl, by decide, by decide, by decide, by decide⟩⟩

/-! ## C3 -/

/-- C3 as stated fails: on a 64-bit machine with 4 KiB pages, wordCount =
(2^32 - 1) * 1024 makes the page count 2^32 - 1, which becomes -1 in the int
`npages`; adding one gives 0 pages and a mapping size of 0. -/
theorem C3_counterexample :
    (mmio_normalize 64 4096 { mo_zero with iobase := 0x1000, range := 4398046510080 }).iosize = 0 ∧
    ¬ (0 < (mmio_normalize 64 4096
          { mo_zero with iobase := 0x1000, range := 4398046510080 }).iosize ∧
       (mmio_normalize 64 4096
          { mo_zero with iobase := 0x1000, range := 4398046510080 }).iosize % 4096 = 0) :=
  ⟨by decide, by decide⟩

/-- C3 (amended): for every page size and every wordCount (wordCount*4 may
wrap) for which the byte size (q + 1) * pageSize, with q = (wordCount*4 mod
2^w) / pageSize, fits an int, the mapping size computed by `mmio_normalize`
is (q + 1) * pageSize: positive and a multiple of pageSize. -/
theorem C3_positive_multiple (w P : Nat) (mo : mmio_options) (hw : 32 ≤ w) (hP1 : 1 ≤ P)
    (hfit : ((mo.range * 4) % 2 ^ w / P + 1) * P < 2147483648) :
    0 < (mmio_normalize w (P : Int) mo).iosize ∧
    (mmio_normalize w (P : Int) mo).iosize % P = 0 ∧
    (mmio_normalize w (P : Int) mo).iosize = ((mo.range * 4) % 2 ^ w / P + 1) * P := by
  have h := normalize_iosize w P mo hw hP1 hfit
  refine ⟨?_, ?_, h⟩
  · rw [h]
    exact Nat.mul_pos (Nat.succ_pos _) hP1
  · rw [h]
    exact Nat.mul_mod_left _ _

/-- C3 at a wordCount whose byte count wraps: 2^30 + 3 words on a 32-bit
machine are 12 bytes after wrap-around, one 4 KiB page. -/
theorem C3_positive_multiple_witness :
    32 ≤ 32 ∧ 1 ≤ 4096 ∧
    0 < (mmio_normalize 32 ((4096 : Nat) : Int)
      { mo_zero with range := 1073741827 }).iosize ∧
    (mmio_normalize 32 ((4096 : Nat) : Int)
      { mo_zero with range := 1073741827 }).iosize % 4096 = 0 ∧
    (mmio_normalize 32 ((4096 : Nat) : Int) { mo_zero with range := 1073741827 }).iosize
      = ((({ mo_zero with range := 1073741827 } : mmio_options).range * 4) % 2 ^ 32 / 4096 + 1)
        * 4096 :=
  ⟨by decide, by decide,
   C3_positive_multiple 32 4096 { mo_zero with range := 1073741827 } (by decide) (by decide)
     (by decide)⟩

/-! ## C4 -/

/-- C5: after a successful `mmio_map` the offset is below the page size and
iobase + offset is the requested address (as numbers, so without
wrap-around), for every page size from 1; `mmio_read`, `mmio_write` and
`mmio_run`, however they end, leave the option block, and so iobase, offset,
range and iosize, unchanged. -/
theorem C5_window_invariant {σ : Type} (w P base n : Nat) (os : OS) (u : Utils σ)
    (bus : Bus σ) (p p' : Proc σ) (hw : 32 ≤ w) (hP1 : 1 ≤ P) (hP2 : P < 2147483648)
    (hos : os.pagesize = (P : Int)) (hb : base < 2 ^ w)
    (hmap : mmio_map w os p base n = .ok p') :
    p'.mo.offset < P ∧ p'.mo.iobase + p'.mo.offset = base ∧
    (mmio_read w os u p').final.mo = p'.mo ∧ (mmio_write w os bus p').final.mo = p'.mo ∧
    (mmio_run w os u bus p').final.mo = p'.mo := by
  obtain ⟨h1, h2⟩ := mmio_map_window w P base n os p p' hw hP1 hP2 hos hb hmap
  refine ⟨h1, h2, (mmio_read_cases w os u p').1, (mmio_write_cases w os bus p').1, ?_⟩
  unfold mmio_run
  split
  · exact (mmio_read_cases w os u p').1
  · split
    · exact (mmio_write_cases w os bus p').1
    · rfl

/-- C5 at requestedBase = 0x1003, two words, 4 KiB pages. -/
theorem C5_window_invariant_witness :
    (mmio_map 32 os_4k (proc0 ()) 0x1003 2).final.mo.offset < 4096 ∧
    (mmio_map 32 os_4k (proc0 ()) 0x1003 2).final.mo.iobase +
      (mmio_map 32 os_4k (proc0 ()) 0x1003 2).final.mo.offset = 0x1003 ∧
    (mmio_read 32 os_4k utils_sample (mmio_map 32 os_4k (proc0 ()) 0x1003 2).final).final.mo =
      (mmio_map 32 os_4k (proc0 ()) 0x1003 2).final.mo ∧
    (mmio_write 32 os_4k (rom 0) (mmio_map 32 os_4k (proc0 ()) 0x1003 2).final).final.mo =
      (mmio_map 32 os_4k (proc0 ()) 0x1003 2).final.mo ∧
    (mmio_run 32 os_4k utils_sample (rom 0)
        (mmio_map 32 os_4k (proc0 ()) 0x1003 2).final).final.mo =
      (mmio_map 32 os_4k (proc0 ()) 0x1003 2).final.mo :=
  C5_window_invariant 32 4096 0x1003 2 os_4k utils_sample (rom 0) (proc0 ()) _ (by decide)
    (by decide) (by decide) rfl (by decide) rfl

/-! ## C6 -/

/-- C6: with a power-of-two page size (an int, so 2^k with k at most 30), the
iobase left by a successful `mmio_map`, which is the file offset of the `mmap`
call, is the requested address rounded down to a page boundary. -/
theorem C6_page_base {σ : Type} (w k base n : Nat) (os : OS) (p p' : Proc σ)
    (hw : 32 ≤ w) (hk : k ≤ 30) (hos : os.pagesize = ((2 ^ k : Nat) : Int))
    (hb : base < 2 ^ w) (hmap : mmio_map w os p base n = .ok p') :
    p'.mo.iobase % 2 ^ k = 0 ∧ p'.mo.iobase ≤ base ∧ base < p'.mo.iobase + 2 ^ k ∧
    Syscall.mmap p'.mo.iosize p'.mo.iobase (some p'.mo.iomem) ∈ p'.calls := by
  obtain ⟨-, hi⟩ := mmio_map_pow2 w k base n os p p' hw hk hos hb hmap
  have hpos : 0 < 2 ^ k := Nat.pos_pow_of_pos k (by decide)
  have hlt : base % 2 ^ k < 2 ^ k := Nat.mod_lt _ hpos
  have hle : base % 2 ^ k ≤ base := Nat.mod_le _ _
  refine ⟨?_, ?_, ?_, ?_⟩
  · rw [hi]
    exact Nat.sub_mod_eq_zero_of_mod_eq (by simp)
  · rw [hi]; omega
  · rw [hi]; omega
  · obtain ⟨ptr, hmo, -, -, -, -, hcalls⟩ := mmio_map_ok w os p p' base n hmap
    have hptr : p'.mo.iomem = ptr := by rw [hmo]
    rw [hcalls, hptr]
    simp

/-- C6 at requestedBase = 0x1003 with 4 KiB pages. -/
theorem C6_page_base_witness :
    (mmio_map 32 os_4k (proc0 ()) 0x1003 2).final.mo.iobase % 2 ^ 12 = 0 ∧
    (mmio_map 32 os_4k (proc0 ()) 0x1003 2).final.mo.iobase ≤ 0x1003 ∧
    0x1003 < (mmio_map 32 os_4k (proc0 ()) 0x1003 2).final.mo.iobase + 2 ^ 12 ∧
    Syscall.mmap (mmio_map 32 os_4k (proc0 ()) 0x1003 2).final.mo.iosize
      (mmio_map 32 os_4k (proc0 ()) 0x1003 2).final.mo.iobase
      (some (mmio_map 32 os_4k (proc0 ()) 0x1003 2).final.mo.iomem) ∈
      (mmio_map 32 os_4k (proc0 ()) 0x1003 2).final.calls :=
  C6_page_base 32 12 0x1003 2 os_4k (proc0 ()) _ (by decide) (by decide) rfl (by decide) rfl

/-! ## C7 -/

/-- C7: on ordinary read-write memory of either byte order, a `writel` of a
32-bit value at an in-bounds location followed by a `readl` of that location
returns the value; the load leaves the memory as the store left it, the
buffer keeps its length and every byte outside the four written is unchanged. -/
theorem C7_roundtrip (be : Bool) (buf : List Nat) (p v : Nat) (hp : p + 4 ≤ buf.length)
    (hv : v < 2 ^ 32) :
    (readl (ram be) p (writel (ram be) v p buf)).1 = v ∧
    (readl (ram be) p (writel (ram be) v p buf)).2 = writel (ram be) v p buf ∧
    (writel (ram be) v p buf).length = buf.length ∧
    ∀ i, (i < p ∨ p + 4 ≤ i) → (writel (ram be) v p buf)[i]? = buf[i]? := by
  refine ⟨?_, rfl, ram_store32_length be buf p v, ?_⟩
  · show ram_load32 be (ram_store32 be buf p v) p = v
    simp only [ram_load32, List.getD_eq_getElem?_getD, ram_store32_get]
    have h0 : p < buf.length := by omega
    have h1 : p + 1 < buf.length := by omega
    have h2 : p + 2 < buf.length := by omega
    have h3 : p + 3 < buf.length := by omega
    cases be <;> simp [h0, h1, h2, h3, word_bytes, bytes_word] <;> omega
  · intro i hi
    show (ram_store32 be buf p v)[i]? = buf[i]?
    rw [ram_store32_get]
    have : i ≠ p ∧ i ≠ p + 1 ∧ i ≠ p + 2 ∧ i ≠ p + 3 := by omega
    simp [this]

/-- C7 on an eight-byte little-endian buffer, writing 0xDEADBEEF at 2. -/
theorem C7_roundtrip_witness :
    2 + 4 ≤ [1, 2, 3, 4, 5, 6, 7, 8].length ∧ 0xDEADBEEF < 2 ^ 32 ∧
    writel (ram false) 0xDEADBEEF 2 [1, 2, 3, 4, 5, 6, 7, 8] =
      [1, 2, 0xEF, 0xBE, 0xAD, 0xDE, 7, 8] ∧
    ((readl (ram false) 2 (writel (ram false) 0xDEADBEEF 2 [1, 2, 3, 4, 5, 6, 7, 8])).1
        = 0xDEADBEEF ∧
     (readl (ram false) 2 (writel (ram false) 0xDEADBEEF 2 [1, 2, 3, 4, 5, 6, 7, 8])).2
        = writel (ram false) 0xDEADBEEF 2 [1, 2, 3, 4, 5, 6, 7, 8] ∧
     (writel (ram false) 0xDEADBEEF 2 [1, 2, 3, 4, 5, 6, 7, 8]).length
        = [1, 2, 3, 4, 5, 6, 7, 8].length ∧
     ∀ i, (i < 2 ∨ 2 + 4 ≤ i) →
       (writel (ram false) 0xDEADBEEF 2 [1, 2, 3, 4, 5, 6, 7, 8])[i]?
         = [1, 2, 3, 4, 5, 6, 7, 8][i]?) :=
  ⟨by decide, by decide, by decide,
   C7_roundtrip false [1, 2, 3, 4, 5, 6, 7, 8] 2 0xDEADBEEF (by decide) (by decide)⟩

/-! ## C8 -/

/-- C8 as stated fails twice.  On a 64-bit machine the address 0x123456789ABC
is printed with twelve digits, not eight.  And for the window of `mmio 0x1ffe
0xDEADBEEF` (offset 0xffe in a mapping of 0x1000 bytes) the store leaves the
mapping, and where nothing is mapped behind it the process is killed at the
store, before anything is printed. -/
theorem C8_counterexample :
    (mmio_write 64 os_4k (rom 0) write_sample_64).final.out =
      ["W@ 123456789ABC: DEADBEEF\n",
       "Wrote DEADBEEF and read again 00000000, r/o register ?\n"] ∧
    (fmtX 8 ((write_sample_64.mo.iobase + write_sample_64.mo.offset) % 2 ^ 64)).length = 12 ∧
    write_sample_edge.mo.offset = 0xffe ∧ write_sample_edge.mo.iosize = 0x1000 ∧
    (mmio_write 32 os_4k (rom 0) write_sample_edge).returned = false ∧
    (mmio_write 32 os_4k (rom 0) write_sample_edge).final.killed = true ∧
    (mmio_write 32 os_4k (rom 0) write_sample_edge).final.out = [] :=
  ⟨by decide, by decide, by decide, by decide, by decide, by decide, by decide⟩

/-- C8 (amended): for a window whose word at mapping + offset lies inside the
mapping, `mmio_write` returns, having stored the value at mapping + offset,
then printed the line `W@ <addr>: <value>` with addr = iobase + offset, both
in upper-case hexadecimal padded with zeros to at least eight digits (exactly
eight for the value, and for an address below 2^32), then loaded the same
location and printed the advisory line exactly when the value read back
differs; no diagnostic is added, no signal ends the process and, entered in
write mode, `mmio_run` returns the same. -/
theorem C8_write_then_verify {σ : Type} (w : Nat) (os : OS) (u : Utils σ) (bus : Bus σ)
    (p : Proc σ) (hv : p.mo.value < 2 ^ 32)
    (hin : inside p.mo ((p.mo.iomem + p.mo.offset) % 2 ^ w) 4 = true) :
    ∃ q, mmio_write w os bus p = .ok q ∧
    q.dev =
      (bus.load32 (bus.store32 p.dev ((p.mo.iomem + p.mo.offset) % 2 ^ w) p.mo.value)
        ((p.mo.iomem + p.mo.offset) % 2 ^ w)).2 ∧
    q.out =
      p.out ++
      ["W@ " ++ fmtX 8 ((p.mo.iobase + p.mo.offset) % 2 ^ w) ++ ": " ++ fmtX 8 p.mo.value
        ++ "\n"] ++
      (if (bus.load32 (bus.store32 p.dev ((p.mo.iomem + p.mo.offset) % 2 ^ w) p.mo.value)
            ((p.mo.iomem + p.mo.offset) % 2 ^ w)).1 = p.mo.value then []
       else
        ["Wrote " ++ fmtX 8 p.mo.value ++ " and read again " ++
          fmtX 8 (bus.load32 (bus.store32 p.dev ((p.mo.iomem + p.mo.offset) % 2 ^ w)
            p.mo.value) ((p.mo.iomem + p.mo.offset) % 2 ^ w)).1 ++ ", r/o register ?\n"]) ∧
    q.err = p.err ∧ q.killed = p.killed ∧
    (p.mo.mode = 1 → mmio_run w os u bus p = .ok q) ∧
    (fmtX 8 p.mo.value).length = 8 ∧
    8 ≤ (fmtX 8 ((p.mo.iobase + p.mo.offset) % 2 ^ w)).length ∧
    ((p.mo.iobase + p.mo.offset) % 2 ^ w < 2 ^ 32 →
      (fmtX 8 ((p.mo.iobase + p.mo.offset) % 2 ^ w)).length = 8) ∧
    (∀ c ∈ (fmtX 8 ((p.mo.iobase + p.mo.offset) % 2 ^ w)).toList ++ (fmtX 8 p.mo.value).toList,
      isUpperHex c = true) := by
  have hs : survives os p.mo ((p.mo.iomem + p.mo.offset) % 2 ^ w) 4 = true := by
    simp [survives, hin]
  have hupper : ∀ c ∈ (fmtX 8 ((p.mo.iobase + p.mo.offset) % 2 ^ w)).toList ++
      (fmtX 8 p.mo.value).toList, isUpperHex c = true := by
    intro c hc
    rcases List.mem_append.mp hc with h | h
    · exact fmtX_upper _ _ c h
    · exact fmtX_upper _ _ c h
  by_cases hback : (bus.load32 (bus.store32 p.dev ((p.mo.iomem + p.mo.offset) % 2 ^ w)
      p.mo.value) ((p.mo.iomem + p.mo.offset) % 2 ^ w)).1 = p.mo.value
  · have hw : mmio_write w os bus p = .ok { p with
        dev := (bus.load32 (bus.store32 p.dev ((p.mo.iomem + p.mo.offset) % 2 ^ w)
          p.mo.value) ((p.mo.iomem + p.mo.offset) % 2 ^ w)).2
        out := p.out ++ ["W@ " ++ fmtX 8 ((p.mo.iobase + p.mo.offset) % 2 ^ w) ++ ": " ++
          fmtX 8 p.mo.value ++ "\n"] } := by
      simp [mmio_write, hs, readl, writel, hback]
    refine ⟨_, hw, rfl, ?_, rfl, rfl, ?_, fmtX_length _ hv, fmtX_length_ge _,
      fun h => fmtX_length _ h, hupper⟩
    · simp [hback]
    · intro hmode
      rw [← hw]
      simp [mmio_run, hmode]
  · have hw : mmio_write w os bus p = .ok { p with
        dev := (bus.load32 (bus.store32 p.dev ((p.mo.iomem + p.mo.offset) % 2 ^ w)
          p.mo.value) ((p.mo.iomem + p.mo.offset) % 2 ^ w)).2
        out := p.out ++ ["W@ " ++ fmtX 8 ((p.mo.iobase + p.mo.offset) % 2 ^ w) ++ ": " ++
          fmtX 8 p.mo.value ++ "\n"] ++
          ["Wrote " ++ fmtX 8 p.mo.value ++ " and read again " ++
            fmtX 8 (bus.load32 (bus.store32 p.dev ((p.mo.iomem + p.mo.offset) % 2 ^ w)
              p.mo.value) ((p.mo.iomem + p.mo.offset) % 2 ^ w)).1 ++
            ", r/o register ?\n"] } := by
      simp [mmio_write, hs, readl, writel, hback]
    refine ⟨_, hw, rfl, ?_, rfl, rfl, ?_, fmtX_length _ hv, fmtX_length_ge _,
      fun h => fmtX_length _ h, hupper⟩
    · simp [hback]
    · intro hmode
      rw [← hw]
      simp [mmio_run, hmode]

/-- C8 on a read-only register fixed at 0: writing 0xDEADBEEF reads back 0
and prints the advisory; the run returns without a diagnostic. -/
theorem C8_write_then_verify_witness :
    write_sample.mo.value < 2 ^ 32 ∧ write_sample.mo.mode = 1 ∧
    inside write_sample.mo
      ((write_sample.mo.iomem + write_sample.mo.offset) % 2 ^ 32) 4 = true ∧
    (rom 0).load32 ((rom 0).store32 () 0x40000000 0xDEADBEEF) 0x40000000 = (0, ()) ∧
    (mmio_write 32 os_4k (rom 0) write_sample).returned = true ∧
    (mmio_write 32 os_4k (rom 0) write_sample).final.out =
      ["W@ 00001000: DEADBEEF\n", "Wrote DEADBEEF and read again 00000000, r/o register ?\n"] ∧
    (mmio_write 32 os_4k (rom 0) write_sample).final.err = [] ∧
    (mmio_write 32 os_4k (rom 0) write_sample).final.killed = false ∧
    ∃ q, mmio_write 32 os_4k (rom 0) write_sample = .ok q ∧
      mmio_run 32 os_4k utils_sample (rom 0) write_sample = .ok q :=
  have h := C8_write_then_verify 32 os_4k utils_sample (rom 0) write_sample (by decide)
    (by decide)
  ⟨by decide, rfl, by decide, rfl, by decide, by decide, by decide, by decide,
   h.elim fun q hq => ⟨q, hq.1, hq.2.2.2.2.2.1 rfl⟩⟩

/-! ## C9 -/

/-- C9 (fails on the code): on `mmio 0x1ffc@2` with 4 KiB pages and nothing
mapped behind the mapping, `main` opens /dev/mem, maps 0x1000 bytes at
0x40000000 and closes the file; the dump then reads past the mapping, the
process is killed by the signal and `mmio_cleanup` never runs: one mapping
acquired, no `munmap`. -/
theorem C9_killed_before_cleanup :
    (main 32 os_4k utils_sample (rom 0) mo_zero () argv_dump).final.calls =
      [Syscall.open_ "/dev/mem" true, Syscall.mmap 0x1000 0x1000 (some 0x40000000),
       Syscall.close] ∧
    acquired (main 32 os_4k utils_sample (rom 0) mo_zero () argv_dump).final.calls =
      [(0x40000000, 0x1000)] ∧
    released (main 32 os_4k utils_sample (rom 0) mo_zero () argv_dump).final.calls = [] ∧
    (main 32 os_4k utils_sample (rom 0) mo_zero () argv_dump).final.killed = true ∧
    (main 32 os_4k utils_sample (rom 0) mo_zero () argv_dump).returned = false :=
  ⟨by decide, by decide, by decide, by decide, by decide⟩

/-! ## C10 -/

/-- C10 as stated fails when wordCount*4 does not fit an unsigned long: on a
32-bit machine `mmio_map` with wordCount = 2^30 succeeds and `mmio_hexdump`
hands the renderer a length of 0, not 2^32. -/
theorem C10_counterexample :
    ∃ p' : Proc Unit, mmio_map 32 os_4k (proc0 ()) 0x1000 1073741824 = .ok p' ∧
      (mmio_hexdump_args 32 p'.mo p'.mo.flags).len = 0 ∧
      ¬ ((mmio_hexdump_args 32 p'.mo p'.mo.flags).len = 1073741824 * 4) :=
  ⟨_, rfl, by decide, by decide⟩

/-- C10 (amended): for every window left by a successful `mmio_map` with
wordCount*4 below 2^w, `mmio_hexdump` hands the renderer the requested address
(which is iobase + offset), the pointer returned by `mmap` plus offset, a
length of exactly wordCount*4, and the flags it was called with; `mmio_read`
passes the flags of the option block and prints what the renderer returns. -/
theorem C10_dump_geometry {σ : Type} (w P base n : Nat) (os : OS) (u : Utils σ)
    (p p' : Proc σ) (hw : 32 ≤ w) (hP1 : 1 ≤ P) (hP2 : P < 2147483648)
    (hos : os.pagesize = (P : Int)) (hb : base < 2 ^ w) (hn : n * 4 < 2 ^ w)
    (hmap : mmio_map w os p base n = .ok p') :
    os.mmap p'.mo.iosize p'.mo.iobase = some p'.mo.iomem ∧
    p'.mo.iobase + p'.mo.offset = base ∧
    (∀ flags, mmio_hexdump_args w p'.mo flags =
      { addr := base, ptr := (p'.mo.iomem + p'.mo.offset) % 2 ^ w, len := n * 4,
        flags := flags }) ∧
    (∀ flags dev, mmio_hexdump w os u p'.mo flags dev =
      if survives os p'.mo ((p'.mo.iomem + p'.mo.offset) % 2 ^ w) (n * 4) = true then
        some (u.hexdump dev base ((p'.mo.iomem + p'.mo.offset) % 2 ^ w) (n * 4) flags)
      else none) ∧
    (survives os p'.mo ((p'.mo.iomem + p'.mo.offset) % 2 ^ w) (n * 4) = true →
      (mmio_read w os u p').returned = true ∧
      (mmio_read w os u p').final.out = p'.out ++
        (u.hexdump p'.dev base ((p'.mo.iomem + p'.mo.offset) % 2 ^ w) (n * 4)
          p'.mo.flags).1) := by
  obtain ⟨-, hsum⟩ := mmio_map_window w P base n os p p' hw hP1 hP2 hos hb hmap
  obtain ⟨-, -, hr, -⟩ := mmio_map_fields w P base n os p p' hw hP1 hP2 hos hb hmap
  obtain ⟨ptr, hmo, hmm, -⟩ := mmio_map_ok w os p p' base n hmap
  have hptr : p'.mo.iomem = ptr := by rw [hmo]
  have hargs : ∀ flags, mmio_hexdump_args w p'.mo flags =
      { addr := base, ptr := (p'.mo.iomem + p'.mo.offset) % 2 ^ w, len := n * 4,
        flags := flags } := by
    intro flags
    simp only [mmio_hexdump_args, hsum, hr, Nat.mod_eq_of_lt hb, Nat.mod_eq_of_lt hn]
  have hdump : ∀ flags dev, mmio_hexdump w os u p'.mo flags dev =
      if survives os p'.mo ((p'.mo.iomem + p'.mo.offset) % 2 ^ w) (n * 4) = true then
        some (u.hexdump dev base ((p'.mo.iomem + p'.mo.offset) % 2 ^ w) (n * 4) flags)
      else none := by
    intro flags dev
    simp only [mmio_hexdump, hexdump_call, hargs]
  refine ⟨by rw [hptr]; exact hmm, hsum, hargs, hdump, ?_⟩
  intro hs
  simp only [mmio_read, hdump, hs, if_true]
  exact ⟨rfl, rfl⟩

/-- C10 at requestedBase = 0x1003, two words, 4 KiB pages, mapping at
0x40000000. -/
theorem C10_dump_geometry_witness :
    mmio_hexdump_args 32 (mmio_map 32 os_4k (proc0 ()) 0x1003 2).final.mo 8 =
      { addr := 0x1003, ptr := 0x40000003, len := 8, flags := 8 } ∧
    survives os_4k (mmio_map 32 os_4k (proc0 ()) 0x1003 2).final.mo
      (((mmio_map 32 os_4k (proc0 ()) 0x1003 2).final.mo.iomem +
        (mmio_map 32 os_4k (proc0 ()) 0x1003 2).final.mo.offset) % 2 ^ 32) (2 * 4) = true ∧
    ((mmio_read 32 os_4k utils_sample (mmio_map 32 os_4k (proc0 ()) 0x1003 2).final).returned
        = true ∧
     (mmio_read 32 os_4k utils_sample (mmio_map 32 os_4k (proc0 ()) 0x1003 2).final).final.out =
      (mmio_map 32 os_4k (proc0 ()) 0x1003 2).final.out ++
      (utils_sample.hexdump (mmio_map 32 os_4k (proc0 ()) 0x1003 2).final.dev 0x1003
        (((mmio_map 32 os_4k (proc0 ()) 0x1003 2).final.mo.iomem +
          (mmio_map 32 os_4k (proc0 ()) 0x1003 2).final.mo.offset) % 2 ^ 32) (2 * 4)
        (mmio_map 32 os_4k (proc0 ()) 0x1003 2).final.mo.flags).1) :=
  ⟨by decide, by decide,
   (C10_dump_geometry 32 4096 0x1003 2 os_4k utils_sample (proc0 ()) _ (by decide)
     (by decide) (by decide) rfl (by decide) (by decide) rfl).2.2.2.2 (by decide)⟩

end Mmio
